import Mathlib

/-!
Verification of the wyoming-openwakeword event handler
(`wyoming_openwakeword/handler.py`) against its natural-language
specification.  The handler's control logic is shallowly embedded below:
the opaque scoring backend (openwakeword `Model.predict`) is represented
by an oracle supplying, per audio chunk, the latest classification score
for each loaded model name, and the wall clock (`time.monotonic`) by an
explicit `now` argument.  Floating-point scores and times are modelled as
rationals; the claims under examination depend only on order comparisons,
not on rounding.
-/

namespace OWW

/-- Characters stripped by Python `str.strip` (ASCII whitespace set). -/
def isPySpace (c : Char) : Bool :=
  c = ' ' || c = '\t' || c = '\n' || c = '\r' || c = '\x0b' || c = '\x0c'

/-- Python `str.strip`: drop leading and trailing whitespace. -/
def pyStrip (cs : List Char) : List Char :=
  ((cs.dropWhile isPySpace).reverse.dropWhile isPySpace).reverse

/-- Embeds `_normalize_key` (handler.py lines 270-272):
`model_key.lower().replace("_", " ").strip()`. -/
def normalize_key (s : String) : String :=
  ⟨pyStrip ((s.data.map Char.toLower).map (fun c => if c = '_' then ' ' else c))⟩

/-- Character class `[0-9.]` of the version regex. -/
def isPyDigitDot (c : Char) : Bool := c.isDigit || c = '.'

/-- Does a character list match `v[0-9.]+` exactly? -/
def isVersionTail : List Char → Bool
  | [] => false
  | c :: rest => c == 'v' && !rest.isEmpty && rest.all isPyDigitDot

/-- Split a character list around its last underscore:
`some (before, after)` when an underscore exists, `none` otherwise. -/
def splitLastUnderscore : List Char → Option (List Char × List Char)
  | [] => none
  | c :: rest =>
    match splitLastUnderscore rest with
    | some (b, a) => some (c :: b, a)
    | none => if c = '_' then some ([], rest) else none

/-- Python `$` also matches just before one final newline; the regex body
excludes newlines, so matching is equivalent to matching the input with a
single trailing newline removed. -/
def stripOneTrailingNewline (cs : List Char) : List Char :=
  if cs.getLast? = some '\n' then cs.dropLast else cs

/-- Embeds `_WAKE_WORD_WITH_VERSION.match` for the Python regex
`^(.+)_(v[0-9.]+)$` (handler.py line 24), returning group 1 on success.
Since `[0-9.]` excludes `_`, only a split at the last underscore can
match; `.` excludes newlines, hence the explicit newline checks. -/
def wake_word_with_version_match (s : String) : Option String :=
  match splitLastUnderscore (stripOneTrailingNewline s.data) with
  | some (b, a) =>
    if !b.isEmpty && b.all (fun c => c != '\n') && isVersionTail a
    then some ⟨b⟩ else none
  | none => none

/-- Embeds `_get_description` (handler.py lines 275-281). -/
def get_description (file_name : String) : String :=
  let base :=
    match wake_word_with_version_match file_name with
    | some b => b
    | none => file_name
  ⟨base.data.map (fun c => if c = '_' then ' ' else c)⟩

/-- Embeds `_get_version` (handler.py lines 284-290): the `v...` part of
the stem, when the version regex matches. -/
def get_version (file_name : String) : Option String :=
  match splitLastUnderscore (stripOneTrailingNewline file_name.data) with
  | some (b, a) =>
    if !b.isEmpty && b.all (fun c => c != '\n') && isVersionTail a
    then some ⟨a⟩ else none
  | none => none

/-- A discoverable model file: directory plus file stem (the `.tflite`
extension is implicit, matching the glob pattern in `_get_model_paths`). -/
structure ModelPath where
  dir : String
  stem : String
  deriving DecidableEq, Repr

/-- `str(p)` for a model path. -/
def ModelPath.str (p : ModelPath) : String :=
  p.dir ++ "/" ++ p.stem ++ ".tflite"

/-- Embeds `Settings` (const.py).  The two directory fields are modelled
by the `.tflite` files they contain, in directory scan order. -/
structure Settings where
  builtin_models : List ModelPath
  custom_models : List ModelPath
  detection_threshold : ℚ
  vad_threshold : ℚ
  refractory_seconds : ℚ
  output_dir : Option String
  debug_probability : Bool
  deriving DecidableEq, Repr

/-- Embeds `_get_model_paths` (handler.py lines 223-233): builtin files
filtered by the version regex, then all custom files. -/
def get_model_paths (st : Settings) : List ModelPath :=
  (st.builtin_models.filter (fun p => (wake_word_with_version_match p.stem).isSome))
    ++ st.custom_models

/-- One requested name matches one file stem when the normalized keys are
equal outright, or equal after stripping the `_v<version>` suffix
(the inner loop body of `_get_wakeword_model_paths`, lines 209-219). -/
def name_matches (model_name stem : String) : Bool :=
  (normalize_key model_name == normalize_key stem) ||
  match wake_word_with_version_match stem with
  | some base => normalize_key model_name == normalize_key base
  | none => false

/-- First model path matching a requested name (first match wins). -/
def resolveName (model_paths : List ModelPath) (model_name : String) : Option ModelPath :=
  model_paths.find? (fun p => name_matches model_name p.stem)

/-- Embeds `_get_wakeword_model_paths` (handler.py lines 200-221): with no
requested names, all model paths; otherwise, for each requested name, the
first matching path if any — an unmatched name contributes nothing. -/
def get_wakeword_model_paths (st : Settings) (detect_names : List String) :
    List ModelPath :=
  if detect_names.isEmpty then get_model_paths st
  else detect_names.filterMap (resolveName (get_model_paths st))

/-! ### Global model cache (`_CACHED_MODELS`, handler.py lines 26-27)

`_CACHED_MODELS: Dict[FrozenSet[str], List[Model]]` is a pool of loaded
`Model` instances keyed by the frozen set of model file paths.  Opaque
`Model` instances are represented by distinct natural-number identities
drawn from a counter (`next_id`); a frozenset key is represented
canonically as a sorted, deduplicated list of path strings.  All accesses
in the source occur under `_CACHED_MODELS_LOCK`, so each cache operation
below is atomic. -/

/-- Insert a string into a sorted list of strings. -/
def insortStr (s : String) : List String → List String
  | [] => [s]
  | t :: rest => if s ≤ t then s :: t :: rest else t :: insortStr s rest

/-- Canonical form of a `frozenset` of strings: sorted and deduplicated. -/
def canonKey : List String → List String
  | [] => []
  | s :: rest =>
    let r := canonKey rest
    if s ∈ r then r else insortStr s r

/-- The process-wide model cache plus a supply of fresh model identities. -/
structure GlobalCache where
  entries : List (List String × List Nat)
  next_id : Nat
  deriving DecidableEq, Repr

/-- `_CACHED_MODELS.get(key)`: `none` when the key is absent. -/
def cacheGet (g : GlobalCache) (k : List String) : Option (List Nat) :=
  (g.entries.find? (fun e => e.1 == k)).map Prod.snd

/-- Store a pool list under a key, replacing any previous entry. -/
def cacheSetList (g : GlobalCache) (k : List String) (l : List Nat) : GlobalCache :=
  { g with entries := (k, l) :: g.entries.filter (fun e => e.1 != k) }

/-! ### Per-connection handler state (`OpenWakeWordEventHandler.__init__`) -/

/-- The mutable per-connection fields of `OpenWakeWordEventHandler`
(handler.py lines 33-64).  `model` holds the opaque openwakeword model
instance (by identity) when loaded; `audio_writer` records whether a
debug WAV sink is open. -/
structure HandlerState where
  model : Option Nat
  model_cache_key : Option (List String)
  model_wait_time : List (String × ℚ)
  last_timestamp : Option ℤ
  has_detections : Bool
  detect_names : List String
  audio_writer : Bool
  deriving DecidableEq, Repr

/-- The state of a freshly connected handler. -/
def initState : HandlerState :=
  { model := none, model_cache_key := none, model_wait_time := [],
    last_timestamp := none, has_detections := false, detect_names := [],
    audio_writer := false }

/-- `self.model_wait_time.get(name)`. -/
def waitGet (d : List (String × ℚ)) (k : String) : Option ℚ :=
  (d.find? (fun e => e.1 == k)).map Prod.snd

/-- `self.model_wait_time[name] = v`. -/
def waitSet (d : List (String × ℚ)) (k : String) (v : ℚ) : List (String × ℚ) :=
  (k, v) :: d.filter (fun e => e.1 != k)

/-- Python `set.update`: add each element not already present. -/
def setUpdate (s : List String) (names : List String) : List String :=
  names.foldl (fun acc n => if n ∈ acc then acc else acc ++ [n]) s

/-- Embeds `_init_model` (handler.py lines 167-190): no-op when a model
is already held; otherwise compute the cache key from the resolved model
paths, pop an instance from the cache pool if one is available
(`list.pop` takes the last element), and only then construct a fresh
`Model` instance. -/
def init_model (st : Settings) (g : GlobalCache) (s : HandlerState) :
    GlobalCache × HandlerState :=
  if s.model.isSome then (g, s)
  else
    let key := canonKey ((get_wakeword_model_paths st s.detect_names).map ModelPath.str)
    let s1 : HandlerState := { s with model_cache_key := some key }
    match cacheGet g key with
    | some cached =>
      if cached.isEmpty then
        ({ g with next_id := g.next_id + 1 }, { s1 with model := some g.next_id })
      else
        (cacheSetList g key cached.dropLast, { s1 with model := cached.getLast? })
    | none =>
      ({ g with next_id := g.next_id + 1 }, { s1 with model := some g.next_id })

/-- Embeds `_return_model_to_cache` (handler.py lines 192-198): append the
held instance to the pool for its key (`defaultdict` creates the entry),
then clear the handler's model fields. -/
def return_model_to_cache (g : GlobalCache) (s : HandlerState) :
    GlobalCache × HandlerState :=
  let g1 :=
    match s.model, s.model_cache_key with
    | some m, some k => cacheSetList g k ((cacheGet g k).getD [] ++ [m])
    | _, _ => g
  (g1, { s with model := none, model_cache_key := none })

/-! ### Events -/

/-- Inbound protocol events, as dispatched by `handle_event`.  An
`audioChunk` carries the chunk timestamp together with the scoring
backend's oracle output for this chunk — the latest classification score
per loaded model name, in `prediction_buffer` iteration order — and the
monotonic clock reading `now` during its processing.  `other` stands for
any unrecognized or malformed event type. -/
inductive WyEvent where
  | describe
  | detect (names : List String)
  | audioStart
  | audioChunk (timestamp : Option ℤ) (scores : List (String × ℚ)) (now : ℚ)
  | audioStop
  | other
  deriving DecidableEq, Repr

/-- Events written back to the client. -/
inductive OutEvent where
  | info
  | detection (name : String) (timestamp : Option ℤ)
  | notDetected
  deriving DecidableEq, Repr

/-- The result of one `handle_event` call: updated global cache, updated
handler state, events written to the client in order, and the return
value of the coroutine. -/
structure StepResult where
  g : GlobalCache
  s : HandlerState
  outs : List OutEvent
  ret : Bool
  deriving DecidableEq, Repr

/-- One iteration of the `for model_name in self.model.prediction_buffer`
loop body (handler.py lines 115-138): skip names excluded by
`detect_names`; on an above-threshold score, skip within the refractory
window, otherwise set the new refractory deadline and emit a `Detection`
carrying `self.last_timestamp`.  Note that `has_detections` is not
touched here, exactly as in the source. -/
def scoreStep (st : Settings) (now : ℚ) (s : HandlerState) (model_name : String)
    (score : ℚ) : HandlerState × List OutEvent :=
  if !s.detect_names.isEmpty && !s.detect_names.contains model_name then (s, [])
  else if st.detection_threshold < score then
    match waitGet s.model_wait_time model_name with
    | some model_time =>
      if now < model_time then (s, [])
      else
        ({ s with model_wait_time :=
              waitSet s.model_wait_time model_name (now + st.refractory_seconds) },
         [OutEvent.detection model_name s.last_timestamp])
    | none =>
      ({ s with model_wait_time :=
            waitSet s.model_wait_time model_name (now + st.refractory_seconds) },
       [OutEvent.detection model_name s.last_timestamp])
  else (s, [])

/-- The whole prediction loop over the chunk's per-model scores. -/
def predictionLoop (st : Settings) (now : ℚ) :
    HandlerState → List (String × ℚ) → HandlerState × List OutEvent
  | s, [] => (s, [])
  | s, (model_name, score) :: rest =>
    let r := scoreStep st now s model_name score
    let r2 := predictionLoop st now r.1 rest
    (r2.1, r.2 ++ r2.2)

/-- Embeds `OpenWakeWordEventHandler.handle_event` (handler.py lines
68-154).  `Describe` answers with `Info` and returns immediately;
`Detect` accumulates requested names when nonempty; `AudioStart` loads
the model if needed, resets per-utterance state and opens the debug sink
when configured; `AudioChunk` records the chunk timestamp and runs the
prediction loop; `AudioStop` emits `NotDetected` when `has_detections`
is false, closes the sink and returns the model to the cache; anything
else is ignored.  Every branch returns `true`. -/
def handle_event (st : Settings) (g : GlobalCache) (s : HandlerState)
    (e : WyEvent) : StepResult :=
  match e with
  | WyEvent.describe => ⟨g, s, [OutEvent.info], true⟩
  | WyEvent.detect names =>
    if !names.isEmpty then
      ⟨g, { s with detect_names := setUpdate s.detect_names names }, [], true⟩
    else ⟨g, s, [], true⟩
  | WyEvent.audioStart =>
    let gs := if s.model.isNone then init_model st g s else (g, s)
    let s1 : HandlerState :=
      { gs.2 with last_timestamp := none, has_detections := false,
                  detect_names := [], model_wait_time := [] }
    let s2 := if st.output_dir.isSome then { s1 with audio_writer := true } else s1
    ⟨gs.1, s2, [], true⟩
  | WyEvent.audioChunk ts scores now =>
    let gs := if s.model.isNone then init_model st g s else (g, s)
    let s1 : HandlerState := { gs.2 with last_timestamp := ts }
    let r := predictionLoop st now s1 scores
    ⟨gs.1, r.1, r.2, true⟩
  | WyEvent.audioStop =>
    let outs := if !s.has_detections then [OutEvent.notDetected] else []
    let s1 : HandlerState := { s with audio_writer := false }
    let gs := return_model_to_cache g s1
    ⟨gs.1, gs.2, outs, true⟩
  | WyEvent.other => ⟨g, s, [], true⟩

/-- Run a sequence of inbound events through one handler, concatenating
the outbound events in order. -/
def runEvents (st : Settings) :
    GlobalCache → HandlerState → List WyEvent →
      GlobalCache × HandlerState × List OutEvent
  | g, s, [] => (g, s, [])
  | g, s, e :: rest =>
    let r := handle_event st g s e
    let r2 := runEvents st r.g r.s rest
    (r2.1, r2.2.1, r.outs ++ r2.2.2)

/-- A clean initial cache. -/
def initCache : GlobalCache := ⟨[], 0⟩

/-- A chunk given to the handler: timestamp, oracle scores, clock reading. -/
def chunkEvent (c : Option ℤ × List (String × ℚ) × ℚ) : WyEvent :=
  WyEvent.audioChunk c.1 c.2.1 c.2.2

/-- Concrete settings used for concrete evaluations: two builtin model
files, detection threshold 0 (so score 1 is above threshold and score 0
is not), refractory period 1 second, no debug output. -/
def testSettings : Settings :=
  { builtin_models := [⟨"models", "alexa_v0.1"⟩, ⟨"models", "hey_jarvis_v0.1"⟩],
    custom_models := [],
    detection_threshold := 0,
    vad_threshold := 0,
    refractory_seconds := 1,
    output_dir := none,
    debug_probability := false }

/-! ## General lemmas about the embedded handler -/

/-- Loading a model touches only the model and cache-key fields. -/
theorem init_model_preserves (st : Settings) (g : GlobalCache) (s : HandlerState) :
    (init_model st g s).2.model_wait_time = s.model_wait_time ∧
    (init_model st g s).2.detect_names = s.detect_names ∧
    (init_model st g s).2.last_timestamp = s.last_timestamp ∧
    (init_model st g s).2.has_detections = s.has_detections := by
  unfold init_model
  split
  · exact ⟨rfl, rfl, rfl, rfl⟩
  · dsimp only
    split <;> first | exact ⟨rfl, rfl, rfl, rfl⟩ | split <;> exact ⟨rfl, rfl, rfl, rfl⟩

/-- One prediction-loop step touches only the wait-time map. -/
theorem scoreStep_preserves (st : Settings) (now : ℚ) (s : HandlerState)
    (n : String) (sc : ℚ) :
    (scoreStep st now s n sc).1.last_timestamp = s.last_timestamp ∧
    (scoreStep st now s n sc).1.has_detections = s.has_detections ∧
    (scoreStep st now s n sc).1.detect_names = s.detect_names := by
  unfold scoreStep
  split
  · exact ⟨rfl, rfl, rfl⟩
  · split
    · split
      · split
        · exact ⟨rfl, rfl, rfl⟩
        · exact ⟨rfl, rfl, rfl⟩
      · exact ⟨rfl, rfl, rfl⟩
    · exact ⟨rfl, rfl, rfl⟩

/-- A score at or below the threshold does nothing. -/
theorem scoreStep_sub_threshold (st : Settings) (now : ℚ) (s : HandlerState)
    (n : String) (sc : ℚ) (h : sc ≤ st.detection_threshold) :
    scoreStep st now s n sc = (s, []) := by
  unfold scoreStep
  split
  · rfl
  · split
    · exact absurd (by assumption) (not_lt.mpr h)
    · rfl

/-- Inside the refractory window a score is entirely ignored: no event,
and the handler state is returned unchanged. -/
theorem scoreStep_suppressed (st : Settings) (now : ℚ) (s : HandlerState)
    (n : String) (sc : ℚ) (w : ℚ)
    (hw : waitGet s.model_wait_time n = some w) (hlt : now < w) :
    scoreStep st now s n sc = (s, []) := by
  unfold scoreStep
  split
  · rfl
  · split
    · rw [hw]
      simp [hlt]
    · rfl

/-- An above-threshold score with no recorded wait deadline fires
immediately, emitting one detection and recording the new deadline. -/
theorem scoreStep_fires (st : Settings) (now : ℚ) (s : HandlerState)
    (n : String) (sc : ℚ)
    (hnames : s.detect_names = [])
    (hth : st.detection_threshold < sc)
    (hw : waitGet s.model_wait_time n = none) :
    scoreStep st now s n sc =
      ({ s with model_wait_time :=
          waitSet s.model_wait_time n (now + st.refractory_seconds) },
       [OutEvent.detection n s.last_timestamp]) := by
  unfold scoreStep
  rw [hnames, hw]
  simp [hth]

/-- An above-threshold score whose recorded deadline has expired fires
again, emitting one detection and recording a fresh deadline. -/
theorem scoreStep_fires_expired (st : Settings) (now : ℚ) (s : HandlerState)
    (n : String) (sc : ℚ) (w : ℚ)
    (hnames : s.detect_names = [])
    (hth : st.detection_threshold < sc)
    (hw : waitGet s.model_wait_time n = some w)
    (hle : ¬ now < w) :
    scoreStep st now s n sc =
      ({ s with model_wait_time :=
          waitSet s.model_wait_time n (now + st.refractory_seconds) },
       [OutEvent.detection n s.last_timestamp]) := by
  unfold scoreStep
  rw [hnames, hw]
  simp [hth, hle]

/-- The prediction loop touches only the wait-time map. -/
theorem predictionLoop_preserves (st : Settings) (now : ℚ) :
    ∀ (scores : List (String × ℚ)) (s : HandlerState),
      (predictionLoop st now s scores).1.last_timestamp = s.last_timestamp ∧
      (predictionLoop st now s scores).1.has_detections = s.has_detections ∧
      (predictionLoop st now s scores).1.detect_names = s.detect_names
  | [], s => ⟨rfl, rfl, rfl⟩
  | (n, sc) :: rest, s => by
    have h1 := scoreStep_preserves st now s n sc
    have h2 := predictionLoop_preserves st now rest (scoreStep st now s n sc).1
    unfold predictionLoop
    exact ⟨h2.1.trans h1.1, h2.2.1.trans h1.2.1, h2.2.2.trans h1.2.2⟩

/-- Any detection emitted by one loop step carries the stored
last-chunk timestamp. -/
theorem scoreStep_out_ts (st : Settings) (now : ℚ) (s : HandlerState)
    (n : String) (sc : ℚ) (nm : String) (t : Option ℤ)
    (h : OutEvent.detection nm t ∈ (scoreStep st now s n sc).2) :
    t = s.last_timestamp := by
  unfold scoreStep at h
  split at h
  · simp at h
  · split at h
    · split at h
      · split at h
        · simp at h
        · simp at h
          exact h.2
      · simp at h
        exact h.2
    · simp at h

/-- Any detection emitted by the prediction loop carries the stored
last-chunk timestamp. -/
theorem predictionLoop_out_ts (st : Settings) (now : ℚ) :
    ∀ (scores : List (String × ℚ)) (s : HandlerState) (nm : String) (t : Option ℤ),
      OutEvent.detection nm t ∈ (predictionLoop st now s scores).2 →
      t = s.last_timestamp
  | [], s, nm, t => by intro h; simp [predictionLoop] at h
  | (n, sc) :: rest, s, nm, t => by
    intro h
    unfold predictionLoop at h
    rw [List.mem_append] at h
    rcases h with h | h
    · exact scoreStep_out_ts st now s n sc nm t h
    · have := predictionLoop_out_ts st now rest (scoreStep st now s n sc).1 nm t h
      exact this.trans (scoreStep_preserves st now s n sc).1

/-- A chunk whose scores are all at or below the threshold leaves the
state untouched and emits nothing. -/
theorem predictionLoop_sub_threshold (st : Settings) (now : ℚ) :
    ∀ (scores : List (String × ℚ)) (s : HandlerState),
      (∀ p ∈ scores, p.2 ≤ st.detection_threshold) →
      predictionLoop st now s scores = (s, [])
  | [], s => by intro _; rfl
  | (n, sc) :: rest, s => by
    intro h
    have hs : scoreStep st now s n sc = (s, []) :=
      scoreStep_sub_threshold st now s n sc (h (n, sc) (List.mem_cons_self _ _))
    have hr : predictionLoop st now s rest = (s, []) :=
      predictionLoop_sub_threshold st now rest s
        (fun p hp => h p (List.mem_cons_of_mem _ hp))
    unfold predictionLoop
    rw [hs]
    simp [hr]

/-- Unfolding of the audio-chunk branch of the event handler. -/
theorem handle_event_audioChunk_eq (st : Settings) (g : GlobalCache)
    (s : HandlerState) (ts : Option ℤ) (scores : List (String × ℚ)) (now : ℚ) :
    handle_event st g s (WyEvent.audioChunk ts scores now) =
      ⟨(if s.model.isNone then init_model st g s else (g, s)).1,
       (predictionLoop st now
         { (if s.model.isNone then init_model st g s else (g, s)).2 with
            last_timestamp := ts } scores).1,
       (predictionLoop st now
         { (if s.model.isNone then init_model st g s else (g, s)).2 with
            last_timestamp := ts } scores).2, true⟩ := rfl

/-- The lazy model load at the start of a chunk leaves the detection
bookkeeping untouched. -/
theorem chunkBase_preserves (st : Settings) (g : GlobalCache) (s : HandlerState) :
    (if s.model.isNone then init_model st g s else (g, s)).2.model_wait_time
        = s.model_wait_time ∧
    (if s.model.isNone then init_model st g s else (g, s)).2.detect_names
        = s.detect_names ∧
    (if s.model.isNone then init_model st g s else (g, s)).2.has_detections
        = s.has_detections := by
  split
  · exact ⟨(init_model_preserves st g s).1, (init_model_preserves st g s).2.1,
      (init_model_preserves st g s).2.2.2⟩
  · exact ⟨rfl, rfl, rfl⟩

/-- A single fresh above-threshold score in a chunk emits exactly one
detection, carrying the chunk timestamp. -/
theorem chunk_single_fires (st : Settings) (g : GlobalCache) (s : HandlerState)
    (name : String) (score : ℚ) (ts : Option ℤ) (now : ℚ)
    (hnames : s.detect_names = [])
    (hth : st.detection_threshold < score)
    (hw : waitGet s.model_wait_time name = none) :
    (handle_event st g s (WyEvent.audioChunk ts [(name, score)] now)).outs
      = [OutEvent.detection name ts] := by
  rw [handle_event_audioChunk_eq]
  have hp := chunkBase_preserves st g s
  have hfire := scoreStep_fires st now
    { (if s.model.isNone then init_model st g s else (g, s)).2 with last_timestamp := ts }
    name score (hp.2.1.trans hnames) hth (hp.1.symm ▸ hw)
  unfold predictionLoop
  rw [hfire]
  rfl

/-- Reading back a freshly stored wait deadline. -/
theorem waitGet_waitSet (d : List (String × ℚ)) (k : String) (v : ℚ) :
    waitGet (waitSet d k v) k = some v := by
  unfold waitGet waitSet
  rw [List.find?_cons_of_pos]
  · rfl
  · exact beq_self_eq_true k

/-- Full description of a chunk carrying one fresh above-threshold score:
one detection out, and the new refractory deadline stored. -/
theorem chunk_single_fires_full (st : Settings) (g : GlobalCache) (s : HandlerState)
    (name : String) (score : ℚ) (ts : Option ℤ) (now : ℚ)
    (hnames : s.detect_names = [])
    (hth : st.detection_threshold < score)
    (hw : waitGet s.model_wait_time name = none) :
    handle_event st g s (WyEvent.audioChunk ts [(name, score)] now) =
      ⟨(if s.model.isNone then init_model st g s else (g, s)).1,
       { (if s.model.isNone then init_model st g s else (g, s)).2 with
           last_timestamp := ts,
           model_wait_time := waitSet s.model_wait_time name
             (now + st.refractory_seconds) },
       [OutEvent.detection name ts], true⟩ := by
  rw [handle_event_audioChunk_eq]
  have hp := chunkBase_preserves st g s
  have hfire := scoreStep_fires st now
    { (if s.model.isNone then init_model st g s else (g, s)).2 with last_timestamp := ts }
    name score (hp.2.1.trans hnames) hth (hp.1.symm ▸ hw)
  unfold predictionLoop
  rw [hfire]
  dsimp only
  rw [hp.1]
  rfl

/-- Full description of a chunk carrying one above-threshold score whose
earlier refractory deadline has already expired: fires again. -/
theorem chunk_single_fires_expired (st : Settings) (g : GlobalCache)
    (s : HandlerState) (name : String) (score : ℚ) (ts : Option ℤ) (now : ℚ) (w : ℚ)
    (hnames : s.detect_names = [])
    (hth : st.detection_threshold < score)
    (hw : waitGet s.model_wait_time name = some w)
    (hle : ¬ now < w) :
    handle_event st g s (WyEvent.audioChunk ts [(name, score)] now) =
      ⟨(if s.model.isNone then init_model st g s else (g, s)).1,
       { (if s.model.isNone then init_model st g s else (g, s)).2 with
           last_timestamp := ts,
           model_wait_time := waitSet s.model_wait_time name
             (now + st.refractory_seconds) },
       [OutEvent.detection name ts], true⟩ := by
  rw [handle_event_audioChunk_eq]
  have hp := chunkBase_preserves st g s
  have hfire := scoreStep_fires_expired st now
    { (if s.model.isNone then init_model st g s else (g, s)).2 with last_timestamp := ts }
    name score w (hp.2.1.trans hnames) hth (hp.1.symm ▸ hw) hle
  unfold predictionLoop
  rw [hfire]
  dsimp only
  rw [hp.1]
  rfl

/-- Full description of a chunk carrying one score inside the refractory
window: nothing out, only the chunk timestamp recorded. -/
theorem chunk_single_unchanged (st : Settings) (g : GlobalCache) (s : HandlerState)
    (name : String) (score : ℚ) (ts : Option ℤ) (now : ℚ) (w : ℚ)
    (hw : waitGet s.model_wait_time name = some w) (hlt : now < w) :
    handle_event st g s (WyEvent.audioChunk ts [(name, score)] now) =
      ⟨(if s.model.isNone then init_model st g s else (g, s)).1,
       { (if s.model.isNone then init_model st g s else (g, s)).2 with
           last_timestamp := ts },
       [], true⟩ := by
  rw [handle_event_audioChunk_eq]
  have hp := chunkBase_preserves st g s
  have hsup := scoreStep_suppressed st now
    { (if s.model.isNone then init_model st g s else (g, s)).2 with last_timestamp := ts }
    name score w (hp.1.symm ▸ hw) hlt
  unfold predictionLoop
  rw [hsup]
  rfl

/-- An audio-start event resets the per-utterance state and emits nothing. -/
theorem handle_event_audioStart (st : Settings) (g : GlobalCache) (s : HandlerState) :
    (handle_event st g s WyEvent.audioStart).outs = [] ∧
    (handle_event st g s WyEvent.audioStart).s.has_detections = false ∧
    (handle_event st g s WyEvent.audioStart).s.detect_names = [] ∧
    (handle_event st g s WyEvent.audioStart).s.model_wait_time = [] ∧
    (handle_event st g s WyEvent.audioStart).s.last_timestamp = none := by
  unfold handle_event
  dsimp only
  split <;> exact ⟨rfl, rfl, rfl, rfl, rfl⟩

/-- With the detection flag still false, audio-stop emits the
not-detected event. -/
theorem handle_event_audioStop_outs (st : Settings) (g : GlobalCache)
    (s : HandlerState) (h : s.has_detections = false) :
    (handle_event st g s WyEvent.audioStop).outs = [OutEvent.notDetected] := by
  unfold handle_event
  dsimp only
  rw [h]
  rfl

/-- A chunk of sub-threshold scores emits nothing and keeps the
detection flag. -/
theorem handle_event_chunk_sub (st : Settings) (g : GlobalCache) (s : HandlerState)
    (ts : Option ℤ) (scores : List (String × ℚ)) (now : ℚ)
    (h : ∀ p ∈ scores, p.2 ≤ st.detection_threshold) :
    (handle_event st g s (WyEvent.audioChunk ts scores now)).outs = [] ∧
    (handle_event st g s (WyEvent.audioChunk ts scores now)).s.has_detections
      = s.has_detections := by
  rw [handle_event_audioChunk_eq]
  rw [predictionLoop_sub_threshold st now scores _ h]
  exact ⟨rfl, (chunkBase_preserves st g s).2.2⟩

/-- Unfolding of a run over a first event and a tail of events. -/
theorem runEvents_cons (st : Settings) (g : GlobalCache) (s : HandlerState)
    (e : WyEvent) (rest : List WyEvent) :
    runEvents st g s (e :: rest) =
      ((runEvents st (handle_event st g s e).g (handle_event st g s e).s rest).1,
       (runEvents st (handle_event st g s e).g (handle_event st g s e).s rest).2.1,
       (handle_event st g s e).outs ++
         (runEvents st (handle_event st g s e).g (handle_event st g s e).s rest).2.2) :=
  rfl

/-- A run of chunks whose scores are all at or below the threshold emits
nothing and keeps the detection flag. -/
theorem runEvents_sub_chunks (st : Settings) :
    ∀ (chunks : List (Option ℤ × List (String × ℚ) × ℚ)) (g : GlobalCache)
      (s : HandlerState),
      (∀ c ∈ chunks, ∀ p ∈ c.2.1, p.2 ≤ st.detection_threshold) →
      (runEvents st g s (chunks.map chunkEvent)).2.2 = [] ∧
      (runEvents st g s (chunks.map chunkEvent)).2.1.has_detections
        = s.has_detections
  | [], g, s => fun _ => ⟨rfl, rfl⟩
  | c :: rest, g, s => by
    intro h
    have hc := handle_event_chunk_sub st g s c.1 c.2.1 c.2.2
      (h c (List.mem_cons_self _ _))
    have hc1 : (handle_event st g s (chunkEvent c)).outs = [] := hc.1
    have hc2 : (handle_event st g s (chunkEvent c)).s.has_detections
        = s.has_detections := hc.2
    have hr := runEvents_sub_chunks st rest
      (handle_event st g s (chunkEvent c)).g
      (handle_event st g s (chunkEvent c)).s
      (fun d hd => h d (List.mem_cons_of_mem _ hd))
    rw [List.map_cons, runEvents_cons]
    dsimp only
    exact ⟨by rw [hc1, hr.1]; rfl, by rw [hr.2, hc2]⟩

/-- Outputs of a run over concatenated event lists decompose. -/
theorem runEvents_append (st : Settings) :
    ∀ (l1 l2 : List WyEvent) (g : GlobalCache) (s : HandlerState),
      (runEvents st g s (l1 ++ l2)).2.2 =
        (runEvents st g s l1).2.2 ++
          (runEvents st (runEvents st g s l1).1 (runEvents st g s l1).2.1 l2).2.2 ∧
      (runEvents st g s (l1 ++ l2)).2.1 =
        (runEvents st (runEvents st g s l1).1 (runEvents st g s l1).2.1 l2).2.1 ∧
      (runEvents st g s (l1 ++ l2)).1 =
        (runEvents st (runEvents st g s l1).1 (runEvents st g s l1).2.1 l2).1
  | [], l2, g, s => ⟨rfl, rfl, rfl⟩
  | e :: rest, l2, g, s => by
    have ih := runEvents_append st rest l2
      (handle_event st g s e).g (handle_event st g s e).s
    rw [List.cons_append, runEvents_cons, runEvents_cons]
    dsimp only
    exact ⟨by rw [ih.1, List.append_assoc], ih.2.1, ih.2.2⟩

/-! ## Lemmas about the model loader and cache -/

/-- Loading is a per-handler no-op once a model is held. -/
theorem init_model_noop (st : Settings) (g : GlobalCache) (s : HandlerState)
    (m : Nat) (hm : s.model = some m) :
    init_model st g s = (g, s) := by
  unfold init_model
  rw [hm]
  rfl

/-- Lookup in an empty cache finds nothing. -/
theorem cacheGet_nil (g : GlobalCache) (k : List String) (hg : g.entries = []) :
    cacheGet g k = none := by
  unfold cacheGet
  rw [hg]
  rfl

/-- When the pool for the computed key is nonempty, loading pops its last
instance and creates nothing new. -/
theorem init_model_pops (st : Settings) (g : GlobalCache) (s : HandlerState)
    (a : Nat) (l : List Nat)
    (hm : s.model = none)
    (hc : cacheGet g
      (canonKey ((get_wakeword_model_paths st s.detect_names).map ModelPath.str))
      = some (a :: l)) :
    (init_model st g s).2.model = (a :: l).getLast? ∧
    (init_model st g s).1.next_id = g.next_id := by
  unfold init_model
  rw [hm]
  dsimp only
  rw [hc]
  exact ⟨rfl, rfl⟩

/-- Loading against an empty cache constructs a fresh instance. -/
theorem init_model_fresh (st : Settings) (g : GlobalCache) (s : HandlerState)
    (hm : s.model = none) (hg : g.entries = []) :
    init_model st g s =
      ({ g with next_id := g.next_id + 1 },
       { s with model := some g.next_id,
                model_cache_key := some (canonKey
                  ((get_wakeword_model_paths st s.detect_names).map ModelPath.str)) }) := by
  unfold init_model
  rw [hm]
  dsimp only
  rw [cacheGet_nil g _ hg]
  rfl

/-! ## Lemmas about the version regex embedding -/

/-- Without an underscore there is no split. -/
theorem slu_none_of_not_mem : ∀ (cs : List Char), '_' ∉ cs →
    splitLastUnderscore cs = none
  | [], _ => rfl
  | c :: rest, h => by
    have hr : splitLastUnderscore rest = none :=
      slu_none_of_not_mem rest (fun hm => h (List.mem_cons_of_mem _ hm))
    have hc : c ≠ '_' := fun he => h (he ▸ List.mem_cons_self _ _)
    unfold splitLastUnderscore
    rw [hr]
    simp only [if_neg (fun he : c = '_' => hc he)]

/-- A failed split means no underscore at all. -/
theorem slu_not_mem_of_none : ∀ (cs : List Char),
    splitLastUnderscore cs = none → '_' ∉ cs
  | [], _ => List.not_mem_nil _
  | c :: rest, h => by
    unfold splitLastUnderscore at h
    cases hr : splitLastUnderscore rest with
    | some p => rw [hr] at h; exact absurd h (by simp)
    | none =>
      rw [hr] at h
      by_cases hc : c = '_'
      · rw [if_pos hc] at h; exact absurd h (by simp)
      · rw [if_neg hc] at h
        intro hm
        rcases List.mem_cons.mp hm with he | hm2
        · exact hc he.symm
        · exact slu_not_mem_of_none rest hr hm2

/-- A successful split decomposes the list at its last underscore. -/
theorem slu_sound : ∀ (cs b a : List Char),
    splitLastUnderscore cs = some (b, a) →
    cs = b ++ '_' :: a ∧ '_' ∉ a
  | [], b, a, h => by exact absurd h (by simp [splitLastUnderscore])
  | c :: rest, b, a, h => by
    unfold splitLastUnderscore at h
    cases hr : splitLastUnderscore rest with
    | some p =>
      rw [hr] at h
      obtain ⟨b', a'⟩ := p
      simp only [Option.some.injEq, Prod.mk.injEq] at h
      obtain ⟨hb, ha⟩ := h
      have ih := slu_sound rest b' a' hr
      subst hb
      subst ha
      exact ⟨by rw [List.cons_append, ← ih.1], ih.2⟩
    | none =>
      rw [hr] at h
      by_cases hc : c = '_'
      · rw [if_pos hc] at h
        simp only [Option.some.injEq, Prod.mk.injEq] at h
        obtain ⟨hb, ha⟩ := h
        subst hb
        subst ha
        subst hc
        exact ⟨rfl, slu_not_mem_of_none rest hr⟩
      · rw [if_neg hc] at h
        exact absurd h (by simp)

/-- A decomposition at an underscore-free tail is found by the split. -/
theorem slu_complete : ∀ (b a : List Char), '_' ∉ a →
    splitLastUnderscore (b ++ '_' :: a) = some (b, a)
  | [], a, h => by
    rw [List.nil_append]
    simp only [splitLastUnderscore]
    rw [slu_none_of_not_mem a h]
    simp
  | c :: b', a, h => by
    rw [List.cons_append]
    simp only [splitLastUnderscore]
    rw [slu_complete b' a h]

/-- Newline handling is vacuous on newline-free input. -/
theorem stripOneTrailingNewline_id (cs : List Char) (h : '\n' ∉ cs) :
    stripOneTrailingNewline cs = cs := by
  unfold stripOneTrailingNewline
  by_cases hl : cs.getLast? = some '\n'
  · obtain ⟨hne, he⟩ := List.mem_getLast?_eq_getLast (Option.mem_def.mpr hl)
    exact absurd (he ▸ List.getLast_mem hne) h
  · rw [if_neg hl]

/-- Characterization of the version tail check. -/
theorem isVersionTail_iff (a : List Char) :
    isVersionTail a = true ↔
      ∃ rest, a = 'v' :: rest ∧ rest ≠ [] ∧ ∀ c ∈ rest, isPyDigitDot c = true := by
  cases a with
  | nil => simp [isVersionTail]
  | cons c rest =>
    simp only [isVersionTail, Bool.and_eq_true, beq_iff_eq, Bool.not_eq_true',
      List.all_eq_true]
    constructor
    · rintro ⟨⟨hc, hne⟩, hall⟩
      refine ⟨rest, by rw [hc], ?_, hall⟩
      cases rest with
      | nil => exact absurd hne (by simp)
      | cons d ds => simp
    · rintro ⟨r, hr, hne, hall⟩
      have hc : c = 'v' := by
        have := congrArg (fun l => List.head? l) hr
        simpa using this
      have hrest : rest = r := by
        have := congrArg (fun l => List.tail l) hr
        simpa using this
      subst hc
      subst hrest
      refine ⟨⟨rfl, ?_⟩, hall⟩
      cases rest with
      | nil => exact absurd rfl hne
      | cons d ds => rfl

/-- Characterization of the embedded regex match on newline-free stems:
it succeeds with group 1 equal to base exactly when the stem is base,
then an underscore, then a v, then a nonempty run of digits and dots. -/
theorem wwv_some_iff (stem : String) (hnl : '\n' ∉ stem.data) (base : List Char) :
    wake_word_with_version_match stem = some ⟨base⟩ ↔
      ∃ ver, stem.data = base ++ '_' :: 'v' :: ver ∧ base ≠ [] ∧ ver ≠ [] ∧
        ∀ c ∈ ver, isPyDigitDot c = true := by
  unfold wake_word_with_version_match
  rw [stripOneTrailingNewline_id stem.data hnl]
  constructor
  · intro h
    cases hs : splitLastUnderscore stem.data with
    | none => rw [hs] at h; exact absurd h (by simp)
    | some p =>
      obtain ⟨b, a⟩ := p
      rw [hs] at h
      dsimp only at h
      by_cases hcond :
          (!b.isEmpty && b.all (fun c => c != '\n') && isVersionTail a) = true
      · rw [if_pos hcond] at h
        simp only [Option.some.injEq] at h
        have hb : b = base := congrArg String.data h
        obtain ⟨hsplit, _⟩ := slu_sound stem.data b a hs
        simp only [Bool.and_eq_true] at hcond
        obtain ⟨⟨hne, _⟩, hvt⟩ := hcond
        obtain ⟨rest, hrest, hrne, hall⟩ := (isVersionTail_iff a).mp hvt
        refine ⟨rest, ?_, ?_, hrne, hall⟩
        · rw [hsplit, hrest, hb]
        · rw [← hb]
          cases b with
          | nil => exact absurd hne (by simp)
          | cons x xs => simp
      · rw [if_neg hcond] at h
        exact absurd h (by simp)
  · rintro ⟨ver, hsplit, hbne, hvne, hall⟩
    have hnomem : '_' ∉ 'v' :: ver := by
      intro hm
      rcases List.mem_cons.mp hm with he | hm2
      · exact absurd he (by decide)
      · exact absurd (hall '_' hm2) (by decide)
    rw [hsplit, slu_complete base ('v' :: ver) hnomem]
    dsimp only
    have hcond :
        (!base.isEmpty && base.all (fun c => c != '\n') && isVersionTail ('v' :: ver))
          = true := by
      simp only [Bool.and_eq_true]
      refine ⟨⟨?_, ?_⟩, ?_⟩
      · cases base with
        | nil => exact absurd rfl hbne
        | cons x xs => rfl
      · refine List.all_eq_true.mpr (fun c hc => ?_)
        refine bne_iff_ne.mpr (fun he => ?_)
        subst he
        exact hnl (hsplit ▸ List.mem_append_left _ hc)
      · exact (isVersionTail_iff ('v' :: ver)).mpr ⟨ver, rfl, hvne, hall⟩
    rw [if_pos hcond]

/-- Characterization of the name-to-stem matching rule on newline-free
stems: match on equal normalized keys, outright or after stripping a
version suffix of the stem. -/
theorem name_matches_iff (model_name stem : String) (hnl : '\n' ∉ stem.data) :
    name_matches model_name stem = true ↔
      normalize_key model_name = normalize_key stem ∨
      ∃ base ver, stem.data = base ++ '_' :: 'v' :: ver ∧ base ≠ [] ∧ ver ≠ [] ∧
        (∀ c ∈ ver, isPyDigitDot c = true) ∧
        normalize_key model_name = normalize_key ⟨base⟩ := by
  unfold name_matches
  rw [Bool.or_eq_true]
  constructor
  · rintro (h | h)
    · exact Or.inl (by simpa using h)
    · cases hw : wake_word_with_version_match stem with
      | none => rw [hw] at h; exact absurd h (by simp)
      | some b =>
        rw [hw] at h
        have hb : normalize_key model_name = normalize_key b := by simpa using h
        have hw2 : wake_word_with_version_match stem = some ⟨b.data⟩ := by rw [hw]
        obtain ⟨ver, h1, h2, h3, h4⟩ := (wwv_some_iff stem hnl b.data).mp hw2
        exact Or.inr ⟨b.data, ver, h1, h2, h3, h4, hb⟩
  · rintro (h | ⟨base, ver, h1, h2, h3, h4, h5⟩)
    · exact Or.inl (by simpa using h)
    · refine Or.inr ?_
      rw [(wwv_some_iff stem hnl base).mpr ⟨ver, h1, h2, h3, h4⟩]
      simpa using h5

/-! ## Claims -/

/-- Claim C1: handling AudioStop should emit NotDetected exactly when no
Detection was emitted for the session since the last AudioStart.  The code
violates this: the field recording detections is documented as true once a
detection occurred, but no code path ever sets it, so NotDetected is
emitted even after a Detection.  This run fires a Detection from an
above-threshold score and still receives NotDetected at AudioStop. -/
theorem C1_notDetected_despite_detection :
    (runEvents testSettings initCache initState
      [WyEvent.audioStart,
       WyEvent.audioChunk (some 0) [("alexa", 1)] 0,
       WyEvent.audioStop]).2.2
      = [OutEvent.detection "alexa" (some 0), OutEvent.notDetected] := by decide

/-- Claim C2, counterexample: the claim predicts that with a trigger level
of two, a stream of exactly two consecutive above-threshold scores with no
refractory overlap yields exactly one Detection, emitted on the second
score, the first emitting nothing.  The code has no trigger counting at
all: the first above-threshold score already emits a Detection, and the
second (outside the refractory window) emits another, so the run yields
two Detection events, the first of them on the first score. -/
theorem C2_counterexample :
    (runEvents testSettings initCache { initState with model := some 0 }
      [WyEvent.audioChunk (some 0) [("alexa", 1)] 0,
       WyEvent.audioChunk (some 1) [("alexa", 1)] 2]).2.2
      = [OutEvent.detection "alexa" (some 0),
         OutEvent.detection "alexa" (some 1)] := by
  rw [runEvents_cons]
  rw [chunk_single_fires_full testSettings initCache
      { initState with model := some 0 } "alexa" 1 (some 0) 0 rfl (by decide) rfl]
  dsimp only
  rw [runEvents_cons]
  rw [chunk_single_fires_expired testSettings _ _ "alexa" 1 (some 1) 2
      (0 + testSettings.refractory_seconds) rfl (by decide)
      (waitGet_waitSet _ _ _) (by norm_num [testSettings])]
  rfl

/-- Claim C2, amended: the handler implements no trigger-level counting
(equivalently the trigger level is fixed at one): a single above-threshold
score for an unfiltered model with no active refractory deadline emits
exactly one Detection, immediately on that score, carrying the chunk
timestamp. -/
theorem C2_first_above_threshold_score_fires (st : Settings) (g : GlobalCache)
    (s : HandlerState) (name : String) (score : ℚ) (ts : Option ℤ) (now : ℚ)
    (hnames : s.detect_names = [])
    (hth : st.detection_threshold < score)
    (hw : waitGet s.model_wait_time name = none) :
    (handle_event st g s (WyEvent.audioChunk ts [(name, score)] now)).outs
      = [OutEvent.detection name ts] :=
  chunk_single_fires st g s name score ts now hnames hth hw

/-- Claim C2, witness for the amended theorem at a concrete input. -/
theorem C2_witness :
    testSettings.detection_threshold < 1 ∧
    (handle_event testSettings initCache initState
        (WyEvent.audioChunk (some 0) [("alexa", 1)] 0)).outs
      = [OutEvent.detection "alexa" (some 0)] :=
  ⟨by decide, C2_first_above_threshold_score_fires testSettings initCache initState
    "alexa" 1 (some 0) 0 rfl (by decide) rfl⟩

/-- Claim C3, counterexample: the claim predicts a ModelNotFound error
surfaced to the requesting session when a requested name resolves to no
file.  The code instead drops the name silently: requesting the unknown
name computer yields an empty resolved path list, and the Detect event
carrying it produces no outbound event at all while the handler keeps the
connection open. -/
theorem C3_counterexample :
    get_wakeword_model_paths testSettings ["computer"] = [] ∧
    (handle_event testSettings initCache initState
      (WyEvent.detect ["computer"])).outs = [] ∧
    (handle_event testSettings initCache initState
      (WyEvent.detect ["computer"])).ret = true := by decide

/-- Claim C3, amended: a requested model name that matches no discoverable
model file is silently dropped during resolution — it contributes nothing
to the resolved path list, the other requested names resolve exactly as
they would without it, and the Detect event carrying it is accepted
normally with no outbound event and the connection kept open. -/
theorem C3_unresolved_name_silently_dropped :
    (∀ (st : Settings) (names : List String) (name : String),
      (∀ p ∈ get_model_paths st, name_matches name p.stem = false) →
      get_wakeword_model_paths st (name :: names)
        = names.filterMap (resolveName (get_model_paths st))) ∧
    (∀ (st : Settings) (name : String) (g : GlobalCache) (s : HandlerState),
      handle_event st g s (WyEvent.detect [name])
        = ⟨g, { s with detect_names := setUpdate s.detect_names [name] }, [], true⟩) := by
  constructor
  · intro st names name h
    unfold get_wakeword_model_paths
    rw [if_neg (by simp)]
    have hres : resolveName (get_model_paths st) name = none := by
      unfold resolveName
      rw [List.find?_eq_none]
      intro p hp
      rw [h p hp]
      simp
    rw [List.filterMap_cons, hres]
  · intro st name g s
    rfl

/-- Claim C3, witness for the amended theorem at a concrete input. -/
theorem C3_witness :
    (∀ p ∈ get_model_paths testSettings,
        name_matches "computer" p.stem = false) ∧
    get_wakeword_model_paths testSettings ["computer", "hey_jarvis"]
      = ["hey_jarvis"].filterMap (resolveName (get_model_paths testSettings)) :=
  ⟨by decide,
   C3_unresolved_name_silently_dropped.1 testSettings ["hey_jarvis"] "computer"
     (by decide)⟩

/-- Claim C4, counterexample: the claim predicts that two concurrent loads
of the same not-yet-loaded identity produce exactly one resident model
instance.  In the code nothing is published to the cache until a handler
returns its model on audio-stop or disconnect, so two handlers that load
while both are active each construct their own instance: the same cache
key, two distinct resident models. -/
theorem C4_counterexample :
    (init_model testSettings initCache initState).2.model = some 0 ∧
    (init_model testSettings
        (init_model testSettings initCache initState).1 initState).2.model
      = some 1 ∧
    (init_model testSettings initCache initState).2.model_cache_key
      = (init_model testSettings
          (init_model testSettings initCache initState).1 initState).2.model_cache_key ∧
    (init_model testSettings initCache initState).2.model
      ≠ (init_model testSettings
          (init_model testSettings initCache initState).1 initState).2.model := by
  have h1 := init_model_fresh testSettings initCache initState rfl rfl
  have hg1 : (init_model testSettings initCache initState).1.entries = [] := by
    rw [h1]
    rfl
  have h2 := init_model_fresh testSettings
    (init_model testSettings initCache initState).1 initState rfl hg1
  exact ⟨by rw [h1]; rfl, by rw [h2, h1]; rfl, by rw [h2, h1],
    by rw [h2, h1]; decide⟩

/-- Claim C4, amended: the cache is a pool of instances per identity, not
a single-flight loader.  Loading is a no-op for a handler that already
holds a model; when the pool for the computed key holds an instance, a
load pops the most recently returned one and creates nothing; and two
loads for the same identity against an empty pool each create a fresh,
distinct instance, both resident simultaneously. -/
theorem C4_cache_pool_semantics :
    (∀ (st : Settings) (g : GlobalCache) (s : HandlerState) (m : Nat),
      s.model = some m → init_model st g s = (g, s)) ∧
    (∀ (st : Settings) (g : GlobalCache) (s : HandlerState) (a : Nat) (l : List Nat),
      s.model = none →
      cacheGet g (canonKey
        ((get_wakeword_model_paths st s.detect_names).map ModelPath.str))
        = some (a :: l) →
      (init_model st g s).2.model = (a :: l).getLast? ∧
      (init_model st g s).1.next_id = g.next_id) ∧
    (∀ (st : Settings) (g : GlobalCache) (sA sB : HandlerState),
      sA.model = none → sB.model = none → g.entries = [] →
      sA.detect_names = sB.detect_names →
      (init_model st g sA).2.model = some g.next_id ∧
      (init_model st (init_model st g sA).1 sB).2.model = some (g.next_id + 1) ∧
      (init_model st g sA).2.model_cache_key
        = (init_model st (init_model st g sA).1 sB).2.model_cache_key ∧
      (init_model st g sA).2.model
        ≠ (init_model st (init_model st g sA).1 sB).2.model) := by
  refine ⟨init_model_noop, init_model_pops, ?_⟩
  intro st g sA sB hA hB hg hdn
  have h1 := init_model_fresh st g sA hA hg
  have hg1 : (init_model st g sA).1.entries = [] := by rw [h1]; exact hg
  have h2 := init_model_fresh st (init_model st g sA).1 sB hB hg1
  refine ⟨by rw [h1], by rw [h2, h1], ?_, ?_⟩
  · rw [h2, h1]
    dsimp only
    rw [hdn]
  · rw [h2, h1]
    dsimp only
    simp

/-- Claim C4, witness for the amended theorem at concrete inputs. -/
theorem C4_witness :
    ({ initState with model := some 5 } : HandlerState).model = some 5 ∧
    init_model testSettings initCache { initState with model := some 5 }
      = (initCache, { initState with model := some 5 }) ∧
    (initCache : GlobalCache).entries = [] ∧
    (init_model testSettings initCache initState).2.model = some 0 := by
  refine ⟨rfl, C4_cache_pool_semantics.1 testSettings initCache _ 5 rfl, rfl, ?_⟩
  exact (C4_cache_pool_semantics.2.2 testSettings initCache initState initState
    rfl rfl rfl rfl).1

/-- Claim C5: after a Detection fires for a model, every above-threshold
score for that model within refractorySeconds of the detection is
suppressed: no Detection event and no state change beyond recording the
chunk timestamp; hence a second above-threshold burst inside the window
produces nothing.  Formally: a fresh above-threshold score at clock time
now1 emits one Detection and stores the deadline now1 plus the refractory
period; a later above-threshold score for the same model at any clock
time now2 before that deadline emits nothing and leaves the wait-time map
unchanged. -/
theorem C5_refractory_suppression (st : Settings) (g : GlobalCache)
    (s : HandlerState) (name : String) (sc1 sc2 : ℚ) (ts1 ts2 : Option ℤ)
    (now1 now2 : ℚ)
    (hnames : s.detect_names = [])
    (hw : waitGet s.model_wait_time name = none)
    (h1 : st.detection_threshold < sc1)
    (h2 : st.detection_threshold < sc2)
    (hlt : now2 < now1 + st.refractory_seconds) :
    (handle_event st g s (WyEvent.audioChunk ts1 [(name, sc1)] now1)).outs
        = [OutEvent.detection name ts1] ∧
    waitGet (handle_event st g s
        (WyEvent.audioChunk ts1 [(name, sc1)] now1)).s.model_wait_time name
        = some (now1 + st.refractory_seconds) ∧
    (handle_event st
        (handle_event st g s (WyEvent.audioChunk ts1 [(name, sc1)] now1)).g
        (handle_event st g s (WyEvent.audioChunk ts1 [(name, sc1)] now1)).s
        (WyEvent.audioChunk ts2 [(name, sc2)] now2)).outs = [] ∧
    (handle_event st
        (handle_event st g s (WyEvent.audioChunk ts1 [(name, sc1)] now1)).g
        (handle_event st g s (WyEvent.audioChunk ts1 [(name, sc1)] now1)).s
        (WyEvent.audioChunk ts2 [(name, sc2)] now2)).s.model_wait_time
      = (handle_event st g s
          (WyEvent.audioChunk ts1 [(name, sc1)] now1)).s.model_wait_time := by
  have hfull := chunk_single_fires_full st g s name sc1 ts1 now1 hnames h1 hw
  rw [hfull]
  dsimp only
  have hget := waitGet_waitSet s.model_wait_time name (now1 + st.refractory_seconds)
  refine ⟨rfl, hget, ?_, ?_⟩
  · rw [chunk_single_unchanged st _ _ name sc2 ts2 now2
      (now1 + st.refractory_seconds) hget hlt]
  · rw [chunk_single_unchanged st _ _ name sc2 ts2 now2
      (now1 + st.refractory_seconds) hget hlt]
    dsimp only
    split <;> [skip; skip] <;>
      first
        | rfl
        | (split
           · rw [(init_model_preserves st _ _).1]
           · rfl)

/-- Claim C5, witness at a concrete input. -/
theorem C5_witness :
    ((0:ℚ) < 0 + testSettings.refractory_seconds) ∧
    (handle_event testSettings initCache initState
        (WyEvent.audioChunk (some 0) [("alexa", 1)] 0)).outs
      = [OutEvent.detection "alexa" (some 0)] ∧
    (handle_event testSettings
        (handle_event testSettings initCache initState
          (WyEvent.audioChunk (some 0) [("alexa", 1)] 0)).g
        (handle_event testSettings initCache initState
          (WyEvent.audioChunk (some 0) [("alexa", 1)] 0)).s
        (WyEvent.audioChunk (some 1) [("alexa", 1)] 0)).outs = [] := by
  have h := C5_refractory_suppression testSettings initCache initState "alexa" 1 1
    (some 0) (some 1) 0 0 rfl rfl (by decide) (by decide) (by simp [testSettings])
  exact ⟨by simp [testSettings], h.1, h.2.2.1⟩

/-- Claim C6: a session whose audio between AudioStart and AudioStop
yields only scores at or below the threshold produces zero Detection
events and, at AudioStop, exactly one NotDetected: the whole outbound
stream of the run is the single NotDetected event. -/
theorem C6_sub_threshold_single_notDetected (st : Settings) (g : GlobalCache)
    (s : HandlerState) (chunks : List (Option ℤ × List (String × ℚ) × ℚ))
    (h : ∀ c ∈ chunks, ∀ p ∈ c.2.1, p.2 ≤ st.detection_threshold) :
    (runEvents st g s
        (WyEvent.audioStart :: (chunks.map chunkEvent ++ [WyEvent.audioStop]))).2.2
      = [OutEvent.notDetected] := by
  rw [runEvents_cons]
  dsimp only
  have hA := handle_event_audioStart st g s
  rw [hA.1]
  have happ := runEvents_append st (chunks.map chunkEvent) [WyEvent.audioStop]
    (handle_event st g s WyEvent.audioStart).g
    (handle_event st g s WyEvent.audioStart).s
  rw [happ.1]
  have hsub := runEvents_sub_chunks st chunks
    (handle_event st g s WyEvent.audioStart).g
    (handle_event st g s WyEvent.audioStart).s h
  rw [hsub.1]
  have hdet : (runEvents st (handle_event st g s WyEvent.audioStart).g
      (handle_event st g s WyEvent.audioStart).s
      (chunks.map chunkEvent)).2.1.has_detections = false := hsub.2.trans hA.2.1
  rw [runEvents_cons]
  dsimp only
  rw [handle_event_audioStop_outs st _ _ hdet]
  rfl

/-- Claim C6, witness at a concrete input: one sub-threshold chunk. -/
theorem C6_witness :
    (∀ c ∈ [((some 0 : Option ℤ), [("alexa", (0:ℚ))], (0:ℚ))],
        ∀ p ∈ c.2.1, p.2 ≤ testSettings.detection_threshold) ∧
    (runEvents testSettings initCache initState
        (WyEvent.audioStart ::
          ([((some 0 : Option ℤ), [("alexa", (0:ℚ))], (0:ℚ))].map chunkEvent
            ++ [WyEvent.audioStop]))).2.2
      = [OutEvent.notDetected] :=
  ⟨by decide,
   C6_sub_threshold_single_notDetected testSettings initCache initState
     [((some 0 : Option ℤ), [("alexa", (0:ℚ))], (0:ℚ))] (by decide)⟩

/-- Claim C7: name resolution matches a requested name against a file
stem on normalized keys (lower-cased, underscores read as spaces, outer
whitespace stripped), either outright or after stripping a trailing
underscore-v-version suffix of digits and dots from the stem; in
particular, requesting hey_jarvis resolves to the file with stem
hey_jarvis_v0.1, and normalization is case, underscore and whitespace
insensitive. -/
theorem C7_name_resolution :
    (∀ (model_name stem : String), '\n' ∉ stem.data →
      (name_matches model_name stem = true ↔
        normalize_key model_name = normalize_key stem ∨
        ∃ base ver, stem.data = base ++ '_' :: 'v' :: ver ∧ base ≠ [] ∧ ver ≠ [] ∧
          (∀ c ∈ ver, isPyDigitDot c = true) ∧
          normalize_key model_name = normalize_key ⟨base⟩)) ∧
    get_wakeword_model_paths testSettings ["hey_jarvis"]
      = [⟨"models", "hey_jarvis_v0.1"⟩] ∧
    normalize_key " Hey_Jarvis " = normalize_key "hey jarvis" :=
  ⟨name_matches_iff, by decide, by decide⟩

/-- Claim C7, witness: the characterization applied to the concrete
hey_jarvis pair. -/
theorem C7_witness :
    ('\n' ∉ "hey_jarvis_v0.1".data) ∧
    name_matches "hey_jarvis" "hey_jarvis_v0.1" = true :=
  ⟨by decide,
   (C7_name_resolution.1 "hey_jarvis" "hey_jarvis_v0.1" (by decide)).mpr
     (Or.inr ⟨"hey_jarvis".data, ['0', '.', '1'], by decide, by decide, by decide,
       by decide, by decide⟩)⟩

/-- Claim C8: every Detection emitted while handling an audio chunk
carries exactly the timestamp of that chunk — the most recently ingested
audio timestamp — independent of the clock reading now at which the
scores were processed. -/
theorem C8_detection_timestamp (st : Settings) (g : GlobalCache)
    (s : HandlerState) (ts : Option ℤ) (scores : List (String × ℚ)) (now : ℚ)
    (name : String) (t : Option ℤ)
    (h : OutEvent.detection name t ∈
      (handle_event st g s (WyEvent.audioChunk ts scores now)).outs) :
    t = ts := by
  rw [handle_event_audioChunk_eq] at h
  exact predictionLoop_out_ts st now scores _ name t h

/-- Claim C8, witness at a concrete input. -/
theorem C8_witness :
    (OutEvent.detection "alexa" (some 7) ∈
      (handle_event testSettings initCache initState
        (WyEvent.audioChunk (some 7) [("alexa", 1)] 0)).outs) ∧
    (some 7 : Option ℤ) = some 7 :=
  ⟨by decide,
   C8_detection_timestamp testSettings initCache initState (some 7)
     [("alexa", 1)] 0 "alexa" (some 7) (by decide)⟩

/-- Claim C9: handle_event returns true for every inbound event, and an
event of unrecognized type is ignored entirely: no state change, no
outbound event, connection kept open. -/
theorem C9_handler_total_and_ignores_unknown (st : Settings) (g : GlobalCache)
    (s : HandlerState) (e : WyEvent) :
    (handle_event st g s e).ret = true ∧
    handle_event st g s WyEvent.other = ⟨g, s, [], true⟩ := by
  refine ⟨?_, rfl⟩
  cases e
  · rfl
  · unfold handle_event
    dsimp only
    split <;> rfl
  · rfl
  · rfl
  · rfl
  · rfl

/-- Claim C10: handling AudioStart clears the set of requested wake-word
names, and with that set empty no model is filtered: any above-threshold
score (outside refractory) for any model name then emits a Detection. -/
theorem C10_audioStart_clears_detect_names :
    (∀ (st : Settings) (g : GlobalCache) (s : HandlerState),
      (handle_event st g s WyEvent.audioStart).s.detect_names = []) ∧
    (∀ (st : Settings) (g : GlobalCache) (s : HandlerState) (name : String)
        (score : ℚ) (ts : Option ℤ) (now : ℚ),
      s.detect_names = [] → st.detection_threshold < score →
      waitGet s.model_wait_time name = none →
      (handle_event st g s (WyEvent.audioChunk ts [(name, score)] now)).outs
        = [OutEvent.detection name ts]) :=
  ⟨fun st g s => (handle_event_audioStart st g s).2.2.1,
   fun st g s name score ts now hn hth hw =>
     chunk_single_fires st g s name score ts now hn hth hw⟩

/-- Claim C10, witness: a start event clears a previously restricted name
set, and a model not named in any Detect event then fires. -/
theorem C10_witness :
    (handle_event testSettings initCache
        { initState with detect_names := ["other_model"] }
        WyEvent.audioStart).s.detect_names = [] ∧
    (handle_event testSettings initCache initState
        (WyEvent.audioChunk (some 3) [("hey_jarvis", 1)] 0)).outs
      = [OutEvent.detection "hey_jarvis" (some 3)] :=
  ⟨C10_audioStart_clears_detect_names.1 testSettings initCache
     { initState with detect_names := ["other_model"] },
   C10_audioStart_clears_detect_names.2 testSettings initCache initState
     "hey_jarvis" 1 (some 3) 0 rfl (by decide) rfl⟩

end OWW
